import Mathlib

/-!
Verification of the cubic-regularized Newton step implementation
(`OPTAMI/second_order/cubic_regularized_newton.py`).

The embedding works over exact rationals.  External library calls
(the eigendecomposition `torch.linalg.eigh`, the scalar ray line search
`line_search.ray_line_search`, and the vector norm `torch.Tensor.norm`) are
oracle parameters: the code under verification only composes their results,
so every theorem quantifies over them.  Python dictionaries are modelled as
references into an explicit store, because `lazy_args` dictionaries are
shared by reference between optimizer instances.
-/

namespace Optami

/-- Vectors are dense lists of rationals (a flattened torch tensor). -/
abbrev Vec := List ℚ

/-- Elementwise addition of two vectors (`torch` `+`). -/
def vadd (a b : Vec) : Vec := List.zipWith (fun x y => x + y) a b

/-- Elementwise product of two vectors (`Tensor.mul`). -/
def vmul (a b : Vec) : Vec := List.zipWith (fun x y => x * y) a b

/-- Scalar multiple of a vector. -/
def smul (c : ℚ) (v : Vec) : Vec := v.map (fun a => c * a)

/-- Elementwise negation (`-x`). -/
def vneg (v : Vec) : Vec := v.map (fun a => -a)

/-- Dot product of two vectors. -/
def dotv (a b : Vec) : ℚ := (vmul a b).sum

/-- A matrix given as its list of rows. -/
abbrev Mat := List Vec

/-- Matrix-vector product (`Tensor.mv`) for a row-list matrix. -/
def mvM (U : Mat) (v : Vec) : Vec := U.map (fun row => dotv row v)

/-- Transpose of a row-list matrix (`Tensor.t`). -/
def transposeM (U : Mat) : Mat :=
  (List.range (U.headD []).length).map (fun j => U.map (fun row => row.getD j 0))

/-- `v.abs().max()`: the largest absolute value of an entry.  The fold seed `0`
agrees with the torch maximum whenever the list is nonempty, because the list
always contains a nonnegative member there. -/
def maxAbs (v : Vec) : ℚ := (v.map (fun a => |a|)).foldr max 0

/-- A dense torch tensor: its shape and its row-major data. -/
structure Tensor where
  dims : List Nat
  data : List ℚ
deriving DecidableEq, Repr

/-- `t.dim()`: the number of dimensions. -/
def Tensor.dim (t : Tensor) : Nat := t.dims.length

/-- `t.size()[0]`: the first dimension if it exists (`none` models the torch
index error on a 0-dimensional shape). -/
def Tensor.size0 (t : Tensor) : Option Nat := t.dims.head?

/-- Number of rows when the tensor is read as a matrix. -/
def Tensor.rows (t : Tensor) : Nat := t.dims.headD 0

/-- Number of columns when the tensor is read as a matrix (a vector reads as a
single column). -/
def Tensor.cols (t : Tensor) : Nat := t.dims.getD 1 1

/-- Entry `(i, j)` of the tensor read as a row-major matrix. -/
def Tensor.entry (t : Tensor) (i j : Nat) : ℚ := t.data.getD (i * t.cols + j) 0

/-- The vector of entries of a tensor. -/
def Tensor.toVec (t : Tensor) : Vec := t.data

/-- `A.mv x` on the tensor read as a matrix. -/
def Tensor.mv (A : Tensor) (v : Vec) : Vec :=
  (List.range A.rows).map (fun i =>
    ((List.range A.cols).map (fun j => A.entry i j * v.getD j 0)).sum)

/-- All index pairs `(i, j)` with `i < r`, `j < c`. -/
def idxPairs (r c : Nat) : List (Nat × Nat) :=
  (List.range r).flatMap (fun i => (List.range c).map (fun j => (i, j)))

/-- `(A.t() - A).max()`: the largest entry of the transpose-difference.  On a
tensor of dimension `< 2`, `Tensor.t` is the identity, so the difference is
zero.  The fold seed `0` agrees with the torch maximum on any nonempty square
matrix, because the diagonal contributes a zero entry. -/
def Tensor.symGap (A : Tensor) : ℚ :=
  if A.dim < 2 then 0
  else ((idxPairs A.rows A.cols).map
    (fun p => A.entry p.2 p.1 - A.entry p.1 p.2)).foldr max 0

/-- `max|Aᵗ - A|` as the specification words it: the largest absolute entry of
the transpose-difference. -/
def Tensor.symAbsGap (A : Tensor) : ℚ :=
  if A.dim < 2 then 0
  else ((idxPairs A.rows A.cols).map
    (fun p => |A.entry p.2 p.1 - A.entry p.1 p.2|)).foldr max 0

/-- A torch parameter: its flattened data and its accumulated gradient
(`None` when no gradient is stored). -/
structure Param where
  data : Vec
  grad : Option Vec
deriving DecidableEq, Repr

/-- Modelled from the spec: `tuple_to_vec.tuple_to_vector`, the flattening
half of the bijection between a parameter collection and one dense vector
(spec section 6); it concatenates the parameters' data. -/
def flattenParams (ps : List Param) : Vec := (ps.map Param.data).flatten

/-- Modelled from the spec: `tuple_to_vec.rollup_vector`, the inverse of the
flattening bijection (spec section 6); it cuts the flat vector back into
chunks shaped like the parameters. -/
def rollup : Vec → List Param → List Vec
  | _, [] => []
  | x, p :: ps => x.take p.data.length :: rollup (x.drop p.data.length) ps

/-- `torch.zeros_like(tuple_to_vector(params))`. -/
def zerosLike (ps : List Param) : Vec := (flattenParams ps).map (fun _ => 0)

/-- The errors `exact` can raise, in source order. -/
inductive ExactErr where
  | notVector
  | notMatrix
  | dimMismatch
  | notSymmetric
  | notOptimal
deriving DecidableEq, Repr

/-- The shape-validation errors among `ExactErr`. -/
def ExactErr.isShapeErr : ExactErr → Bool
  | .notVector => true
  | .notMatrix => true
  | .dimMismatch => true
  | _ => false

/-- `inv(T, L, tau) = (T + L / 2 * tau).reciprocal()`. -/
def inv (T : Vec) (L tau : ℚ) : Vec := T.map (fun t => (t + L / 2 * tau)⁻¹)

/-- `dual(tau) = L / 12 * tau³ + 1 / 2 * (inv(T, L, tau) * ct²).sum()`. -/
def dual (T ct : Vec) (L : ℚ) (tau : ℚ) : ℚ :=
  L / 12 * tau ^ (3 : ℕ) + 1 / 2 * (vmul (inv T L tau) (ct.map (fun a => a ^ (2 : ℕ)))).sum

/-- The function `exact(params, closure, L, hess=None, delta=1e-8,
testing=False)`.  Oracle parameters stand for the external calls: `eigh` for
`torch.linalg.eigh`, `rayLS` for `line_search.ray_line_search` (applied to the
dual objective, the left point, the middle point and the tolerance), `nrm` for
`Tensor.norm`; `df` is the flattened gradient returned by `torch.autograd.grad`
on the closure and `hessOracle` the matrix `derivatives.flat_hessian` would
produce.  Exact rational arithmetic makes `detach`/`to(double)`/`type_as`
the identity. -/
def exact (eigh : Tensor → Vec × Mat)
    (rayLS : (ℚ → ℚ) → ℚ → ℚ → ℚ → ℚ)
    (nrm : Vec → ℚ)
    (df : Tensor) (hessOracle : Tensor)
    (params : List Param) (L : ℚ) (hess : Option Tensor)
    (delta : ℚ) (testing : Bool) : Except ExactErr (List Vec × Tensor) :=
  let H := hess.getD hessOracle
  let c := df
  let A := H
  if c.dim ≠ 1 then .error .notVector
  else if 2 < A.dim then .error .notMatrix
  else if c.size0 ≠ A.size0 then .error .dimMismatch
  else if 1 / 10 < A.symGap then .error .notSymmetric
  else
    let TU := eigh A
    let T := TU.1
    let U := TU.2
    let ct := mvM (transposeM U) c.toVec
    let tau_best := rayLS (dual T ct L) 0 2 delta
    let invert := inv T L tau_best
    let x := vneg (mvM U (vmul invert ct))
    if testing ∧ 1 / 100 ≤ maxAbs (vadd (vadd c.toVec (smul (L / 2 * nrm x) x)) (A.mv x)) then
      .error .notOptimal
    else .ok (rollup x params, H)

/-- The loop of `iterative`, structurally recursive in the remaining iteration
count.  `hvp x` stands for `derivatives.flat_hvp(closure, params, x)`
returning `(Hx, df)`; `upd` stands for one `optimizer.step()` of the injected
subsolver, consuming the trial vector and the gradient written into
`x.grad`; `nrm` stands for `Tensor.norm`.  The success test reads `x.grad`
after the update, which the subsolver does not rewrite, and returns the
updated trial vector. -/
def iterLoop (hvp : Vec → Vec × Vec) (upd : Vec → Vec → Vec) (nrm : Vec → ℚ)
    (L rel_acc : ℚ) : Nat → Vec → Bool × Vec
  | 0, x => (false, x)
  | Nat.succ m, x =>
      let Hxdf := hvp x
      let g := vadd (vadd Hxdf.2 Hxdf.1) (smul (L * nrm x / 2) x)
      let x1 := upd x g
      if nrm g < rel_acc * nrm Hxdf.2 then (true, x1)
      else iterLoop hvp upd nrm L rel_acc m x1

/-- The function `iterative(params, closure, L, subsolver, subsolver_args,
max_iters, rel_acc)`: start the trial vector at zero, run at most `max_iters`
gradient-style updates, and roll the resulting flat vector back into
parameter-shaped chunks.  It always returns; it never raises. -/
def iterative (hvp : Vec → Vec × Vec) (upd : Vec → Vec → Vec) (nrm : Vec → ℚ)
    (params : List Param) (L : ℚ) (max_iters : Nat) (rel_acc : ℚ) :
    Bool × List Vec :=
  let r := iterLoop hvp upd nrm L rel_acc max_iters (zerosLike params)
  (r.1, rollup r.2 params)

/-- The synthetic gradient `df + Hx + x * (L * x.norm() / 2)` written into
`x.grad` at trial vector `x`. -/
def synthGrad (hvp : Vec → Vec × Vec) (nrm : Vec → ℚ) (L : ℚ) (x : Vec) : Vec :=
  vadd (vadd (hvp x).2 (hvp x).1) (smul (L * nrm x / 2) x)

/-- The stopping test `x.grad.norm() < rel_acc * df.norm()` evaluated at the
pre-update trial vector `x`. -/
abbrev satAt (hvp : Vec → Vec × Vec) (nrm : Vec → ℚ) (L rel_acc : ℚ) (x : Vec) : Prop :=
  nrm (synthGrad hvp nrm L x) < rel_acc * nrm (hvp x).2

/-- The sequence of trial vectors produced from a start vector by repeated
subsolver updates against the synthetic gradient. -/
def trialSeq (hvp : Vec → Vec × Vec) (upd : Vec → Vec → Vec) (nrm : Vec → ℚ)
    (L : ℚ) (x0 : Vec) : Nat → Vec
  | 0 => x0
  | Nat.succ k =>
      let x := trialSeq hvp upd nrm L x0 k
      upd x (synthGrad hvp nrm L x)

/-- The contents of a `lazy_args` dictionary after construction has filled in
its keys `step_per_update`, `cur_iter` and `cached_hess`. -/
structure LazyDict where
  step_per_update : Int
  cur_iter : Int
  cached_hess : Int
deriving DecidableEq, Repr

/-- A heap of dictionaries: Python passes `lazy_args` by reference, so two
optimizer instances may point at the same dictionary. -/
abbrev Env := List LazyDict

/-- The dictionary used when a reference is dangling (never happens on the
environments the theorems build). -/
def emptyLazy : LazyDict := ⟨0, 0, 0⟩

/-- `group['lazy_args']['cur_iter'] += 1` on the dictionary at reference `r`. -/
def envIncr (env : Env) (r : Nat) : Env :=
  env.set r { env.getD r emptyLazy with cur_iter := (env.getD r emptyLazy).cur_iter + 1 }

/-- `lazy_args['cur_iter'] = 0; lazy_args['cached_hess'] = 0` on the
dictionary at reference `r`, as run by the constructor. -/
def envInitLazy (env : Env) (r : Nat) : Env :=
  env.set r { env.getD r emptyLazy with cur_iter := 0, cached_hess := 0 }

/-- The subsolver arguments; `{'lr': 1e-2}` is the default installed when the
caller passes a falsy value. -/
structure SubArgs where
  lr : ℚ
deriving DecidableEq, Repr

/-- One parameter group as stored by `torch.optim.Optimizer`: the parameters
plus every default.  The subsolver class itself is an external black box, so
only its presence is recorded; `lazyRef` is the reference to the shared
`lazy_args` dictionary. -/
structure Group where
  params : List Param
  L : ℚ
  subsolver : Option Unit
  subsolver_args : SubArgs
  max_iters : Nat
  rel_acc : ℚ
  lazyRef : Nat
deriving DecidableEq, Repr

/-- The per-instance state of a `CubicRegularizedNewton` optimizer:
`param_groups`, the `verbose` and `testing` flags, the `self.hess` attribute
set to `None` by the constructor, and the `self.cached_hess` attribute, whose
`none` value models the attribute not existing yet (reading it then raises
`AttributeError`). -/
structure CRN where
  groups : List Group
  verbose : Bool
  testing : Bool
  hessAttr : Option Tensor
  cached_hess : Option Tensor
deriving DecidableEq, Repr

/-- The constructor's only error: `ValueError` for a non-positive `L`. -/
inductive InitErr where
  | invalidL
deriving DecidableEq, Repr

/-- The errors a `step` call can raise: the `AttributeError` from reading the
missing `self.cached_hess`, or a `ValueError` propagated out of `exact`. -/
inductive StepErr where
  | attrError
  | exactError (e : ExactErr)
deriving DecidableEq, Repr

/-- `CubicRegularizedNewton.__init__`.  `lazyRef` is the reference of the
`lazy_args` dictionary argument; callers that rely on the default argument
all pass the reference of the one module-level `dict(step_per_update=1)`.
`torch.optim.Optimizer.__init__` stores each default by reference into every
parameter group, so all groups share `lazyRef`.  The model assumes the
parameter list itself is well-formed (torch raises on an empty one). -/
def CRN.init (env : Env) (lazyRef : Nat) (paramGroups : List (List Param))
    (L : ℚ) (subsolver : Option Unit) (subsolver_args : Option SubArgs)
    (max_iters : Nat) (rel_acc : ℚ) (verbose testing : Bool) :
    Except InitErr (Env × CRN) :=
  if L ≤ 0 then .error .invalidL
  else
    .ok (envInitLazy env lazyRef,
      { groups := paramGroups.map (fun ps =>
          { params := ps, L := L, subsolver := subsolver,
            subsolver_args := subsolver_args.getD ⟨1 / 100⟩,
            max_iters := max_iters, rel_acc := rel_acc, lazyRef := lazyRef }),
        verbose := verbose, testing := testing,
        hessAttr := none, cached_hess := none })

/-- The default `delta=1e-8` of `exact`, used by `step`, which never passes
`delta` explicitly. -/
def defaultDelta : ℚ := 1 / 100000000

/-- `p.add_(x[i])` under `torch.no_grad()`: the data is updated in place, the
gradient state of the parameter is untouched and no autograd graph is built.
The loop `for i, p in enumerate(params)` walks every parameter and indexes the
rolled-up step. -/
def applyStep (ps : List Param) (xs : List Vec) : List Param :=
  ps.enum.map (fun ip => { ip.2 with data := vadd ip.2.data (xs.getD ip.1 []) })

/-- The in-place gradient clearing each entered iteration of `iterative`
performs on the caller's parameters: `p.grad.zero_()` for every parameter
whose gradient is not `None` (the `detach_`/`requires_grad_` calls alongside
it only adjust autograd-graph bookkeeping, not the stored value).  Zeroing
is idempotent, so after any positive number of entered iterations the
parameters' gradient state is exactly this. -/
def clearGrads (ps : List Param) : List Param :=
  ps.map (fun p =>
    match p.grad with
    | none => p
    | some grad => { p with grad := some (grad.map (fun _ => 0)) })

/-- The solver dispatch of the `for group in self.param_groups` loop body,
after `precalc` has been selected: run `exact` (no subsolver configured,
caching the returned Hessian) or `iterative` (subsolver configured, cache
unchanged), apply the step to the parameters in place under `no_grad`, and
increment the group's `lazy_args['cur_iter']`.  On the iterative path the
inner loop has additionally zeroed the parameters' accumulated gradients in
place whenever it ran at least one iteration (i.e. unless `max_iters = 0`);
`iterative` itself carries the returned value, and that side effect on the
caller's parameters is applied here, at its call site (the HVP oracle is
pure, per the spec's differentiation-oracle contract).  Returns the updated
dictionary heap, the updated group and the new value of `self.cached_hess`. -/
def stepGroupRun (eigh : Tensor → Vec × Mat) (rayLS : (ℚ → ℚ) → ℚ → ℚ → ℚ → ℚ)
    (nrm : Vec → ℚ) (dfO : List Param → Tensor) (hessO : List Param → Tensor)
    (hvpO : List Param → Vec → Vec × Vec) (upd : Vec → Vec → Vec)
    (testing : Bool) (env : Env) (precalc : Option Tensor) (cached : Option Tensor)
    (g : Group) : Except StepErr (Env × Group × Option Tensor) :=
  match g.subsolver with
  | none =>
      match exact eigh rayLS nrm (dfO g.params) (hessO g.params) g.params
          g.L precalc defaultDelta testing with
      | .error e => .error (.exactError e)
      | .ok xH =>
          .ok (envIncr env g.lazyRef,
            { g with params := applyStep g.params xH.1 }, some xH.2)
  | some _ =>
      let r := iterative (hvpO g.params) upd nrm g.params g.L g.max_iters g.rel_acc
      let base := if g.max_iters = 0 then g.params else clearGrads g.params
      .ok (envIncr env g.lazyRef, { g with params := applyStep base r.2 }, cached)

/-- The body of the `for group in self.param_groups` loop for one group:
select `precalc`, reading the possibly missing `self.cached_hess` attribute
when `hess=False` (an absent attribute raises `AttributeError`), then run the
dispatch. -/
def stepGroup (eigh : Tensor → Vec × Mat) (rayLS : (ℚ → ℚ) → ℚ → ℚ → ℚ → ℚ)
    (nrm : Vec → ℚ) (dfO : List Param → Tensor) (hessO : List Param → Tensor)
    (hvpO : List Param → Vec → Vec × Vec) (upd : Vec → Vec → Vec)
    (testing : Bool) (env : Env) (cached : Option Tensor) (hess : Bool)
    (g : Group) : Except StepErr (Env × Group × Option Tensor) :=
  if hess then
    stepGroupRun eigh rayLS nrm dfO hessO hvpO upd testing env none cached g
  else
    match cached with
    | none => .error .attrError
    | some h =>
        stepGroupRun eigh rayLS nrm dfO hessO hvpO upd testing env (some h) cached g

/-- The `for group in self.param_groups` loop, threading the dictionary heap
and the `self.cached_hess` attribute through the groups in order. -/
def stepGroups (eigh : Tensor → Vec × Mat) (rayLS : (ℚ → ℚ) → ℚ → ℚ → ℚ → ℚ)
    (nrm : Vec → ℚ) (dfO : List Param → Tensor) (hessO : List Param → Tensor)
    (hvpO : List Param → Vec → Vec × Vec) (upd : Vec → Vec → Vec)
    (testing : Bool) : Env → Option Tensor → Bool → List Group →
    Except StepErr (Env × Option Tensor × List Group)
  | env, cached, _, [] => .ok (env, cached, [])
  | env, cached, hess, g :: gs =>
      match stepGroup eigh rayLS nrm dfO hessO hvpO upd testing env cached hess g with
      | .error e => .error e
      | .ok r =>
          match stepGroups eigh rayLS nrm dfO hessO hvpO upd testing r.1 r.2.2 hess gs with
          | .error e => .error e
          | .ok r2 => .ok (r2.1, r2.2.1, r.2.1 :: r2.2.2)

/-- `CubicRegularizedNewton.step(closure, hess=True)`.  The closure only
enters through the differentiation oracles `dfO`, `hessO` and `hvpO`.  Python
returns `None`; the observable result is the updated heap and instance
state. -/
def CRN.step (eigh : Tensor → Vec × Mat) (rayLS : (ℚ → ℚ) → ℚ → ℚ → ℚ → ℚ)
    (nrm : Vec → ℚ) (dfO : List Param → Tensor) (hessO : List Param → Tensor)
    (hvpO : List Param → Vec → Vec × Vec) (upd : Vec → Vec → Vec)
    (env : Env) (s : CRN) (hess : Bool) : Except StepErr (Env × CRN) :=
  match stepGroups eigh rayLS nrm dfO hessO hvpO upd s.testing env s.cached_hess hess s.groups with
  | .error e => .error e
  | .ok r => .ok (r.1, { s with groups := r.2.2, cached_hess := r.2.1 })

/-- The configuration of a parameter group: everything `step` may read but,
per the claimed frame, never writes — `L`, `rel_acc`, `max_iters`, the
subsolver selection and arguments, and the `lazy_args` dictionary
reference. -/
def groupCfg (g : Group) : ℚ × ℚ × Nat × Option Unit × SubArgs × Nat :=
  (g.L, g.rel_acc, g.max_iters, g.subsolver, g.subsolver_args, g.lazyRef)

/-! ### Concrete oracle instantiations used to evaluate the model -/

/-- A concrete eigendecomposition oracle for the `1 × 1` Hessian `[[2]]`. -/
def demoEigh : Tensor → Vec × Mat := fun _ => ([2], [[1]])

/-- A concrete line-search oracle returning `τ* = 0`. -/
def demoLS : (ℚ → ℚ) → ℚ → ℚ → ℚ → ℚ := fun _ _ _ _ => 0

/-- A concrete norm oracle. -/
def demoNrm : Vec → ℚ := fun _ => 0

/-- A concrete gradient oracle returning the 1-D gradient `[1]`. -/
def demoDf : List Param → Tensor := fun _ => ⟨[1], [1]⟩

/-- A concrete Hessian oracle returning the `1 × 1` matrix `[[2]]`. -/
def demoHessO : List Param → Tensor := fun _ => ⟨[1, 1], [2]⟩

/-- A concrete Hessian-vector-product oracle. -/
def demoHvp : List Param → Vec → Vec × Vec := fun _ x => (x, x)

/-- A concrete subsolver update oracle. -/
def demoUpd : Vec → Vec → Vec := fun x _ => x

/-- The heap holding the single module-level default dictionary
`dict(step_per_update=1)` at reference `0`, before any constructor has filled
in its other keys. -/
def sharedLazyEnv : Env := [⟨1, 0, 0⟩]

/-! ### Helper lemmas -/

theorem le_foldr_max {l : List ℚ} {x : ℚ} (h : x ∈ l) : x ≤ l.foldr max 0 := by
  induction l with
  | nil => cases h
  | cons a t ih =>
      cases h with
      | head => exact le_max_left _ _
      | tail _ h => exact le_trans (ih h) (le_max_right _ _)

theorem foldr_max_nonneg (l : List ℚ) : 0 ≤ l.foldr max 0 := by
  induction l with
  | nil => exact le_refl 0
  | cons a t ih => exact le_trans ih (le_max_right _ _)

theorem foldr_max_le {l : List ℚ} {b : ℚ} (h : ∀ x ∈ l, x ≤ b) (hb : 0 ≤ b) :
    l.foldr max 0 ≤ b := by
  induction l with
  | nil => exact hb
  | cons a t ih =>
      exact max_le (h a (List.mem_cons_self a t)) (ih fun x hx => h x (List.mem_cons_of_mem a hx))

theorem foldr_max_eq_zero {l : List ℚ} (h : ∀ x ∈ l, x = 0) : l.foldr max 0 = 0 :=
  le_antisymm (foldr_max_le (fun x hx => le_of_eq (h x hx)) (le_refl 0)) (foldr_max_nonneg l)

theorem mem_idxPairs {r c : Nat} {p : Nat × Nat} : p ∈ idxPairs r c ↔ p.1 < r ∧ p.2 < c := by
  cases p with
  | mk i j => simp [idxPairs]

/-- An entrywise symmetric tensor has a zero transpose-difference maximum. -/
theorem symGap_eq_zero (A : Tensor) (hsym : ∀ i j, A.entry i j = A.entry j i) :
    A.symGap = 0 := by
  unfold Tensor.symGap
  split
  · rfl
  · apply foldr_max_eq_zero
    intro x hx
    rcases List.mem_map.mp hx with ⟨p, _, rfl⟩
    rw [hsym p.2 p.1]
    ring

/-- On a square matrix the plain maximum of `Aᵗ - A` equals the maximum of its
absolute values: the entries of `Aᵗ - A` come in `±` pairs. -/
theorem symGap_eq_symAbsGap (A : Tensor) (n : Nat) (hA : A.dims = [n, n]) :
    A.symGap = A.symAbsGap := by
  have hdim : ¬ A.dim < 2 := by simp [Tensor.dim, hA]
  have hrows : A.rows = n := by simp [Tensor.rows, hA]
  have hcols : A.cols = n := by simp [Tensor.cols, hA]
  unfold Tensor.symGap Tensor.symAbsGap
  rw [if_neg hdim, if_neg hdim, hrows, hcols]
  apply le_antisymm
  · apply foldr_max_le
    · intro x hx
      rcases List.mem_map.mp hx with ⟨p, hp, rfl⟩
      refine le_trans (le_abs_self _) (le_foldr_max ?_)
      exact List.mem_map.mpr ⟨p, hp, rfl⟩
    · exact foldr_max_nonneg _
  · apply foldr_max_le
    · intro x hx
      rcases List.mem_map.mp hx with ⟨p, hp, rfl⟩
      rcases mem_idxPairs.mp hp with ⟨h1, h2⟩
      apply abs_le'.mpr
      constructor
      · exact le_foldr_max (List.mem_map.mpr ⟨p, hp, rfl⟩)
      · have hmem : ((p.2, p.1) : Nat × Nat) ∈ idxPairs n n := mem_idxPairs.mpr ⟨h2, h1⟩
        have := le_foldr_max (l := (idxPairs n n).map
          (fun q => A.entry q.2 q.1 - A.entry q.1 q.2))
          (List.mem_map.mpr ⟨(p.2, p.1), hmem, rfl⟩)
        calc -(A.entry p.2 p.1 - A.entry p.1 p.2)
            = A.entry p.1 p.2 - A.entry p.2 p.1 := by ring
          _ ≤ _ := this
    · exact foldr_max_nonneg _

/-- `rollup` only reads the shapes of the parameters. -/
theorem rollup_congr (v : Vec) (ps qs : List Param)
    (h : ps.map (fun p => p.data.length) = qs.map (fun p => p.data.length)) :
    rollup v ps = rollup v qs := by
  induction ps generalizing v qs with
  | nil =>
      cases qs with
      | nil => rfl
      | cons q qs => simp at h
  | cons p ps ih =>
      cases qs with
      | nil => simp at h
      | cons q qs =>
          simp only [List.map_cons, List.cons.injEq] at h
          simp only [rollup, h.1]
          exact congrArg _ (ih _ _ h.2)

/-- The in-place update leaves every parameter's gradient state untouched. -/
theorem applyStep_grads (ps : List Param) (xs : List Vec) :
    (applyStep ps xs).map Param.grad = ps.map Param.grad := by
  unfold applyStep
  rw [List.map_map]
  conv_rhs => rw [← List.enum_map_snd ps, List.map_map]
  rfl

theorem getD_set_self {α : Type} (l : List α) (r : Nat) (v d : α) (h : r < l.length) :
    (l.set r v).getD r d = v := by
  induction l generalizing r with
  | nil => simp at h
  | cons a t ih =>
      cases r with
      | zero => rfl
      | succ r =>
          simp only [List.set_cons_succ, List.getD_cons_succ]
          exact ih r (by simpa using h)

/-- Shifting the start of the trial-vector sequence by one update. -/
theorem trialSeq_shift (hvp : Vec → Vec × Vec) (upd : Vec → Vec → Vec) (nrm : Vec → ℚ)
    (L : ℚ) (x0 : Vec) (k : Nat) :
    trialSeq hvp upd nrm L (upd x0 (synthGrad hvp nrm L x0)) k =
      trialSeq hvp upd nrm L x0 (k + 1) := by
  induction k with
  | zero => rfl
  | succ k ih => simp only [trialSeq, ih]

/-- One unfolding of the inner loop in terms of the named pieces. -/
theorem iterLoop_succ (hvp : Vec → Vec × Vec) (upd : Vec → Vec → Vec) (nrm : Vec → ℚ)
    (L a : ℚ) (m : Nat) (x : Vec) :
    iterLoop hvp upd nrm L a (m + 1) x =
      if satAt hvp nrm L a x then (true, upd x (synthGrad hvp nrm L x))
      else iterLoop hvp upd nrm L a m (upd x (synthGrad hvp nrm L x)) := by
  rfl

/-- If no iteration satisfies the stopping rule, the loop runs to exhaustion
and reports failure with the final trial vector. -/
theorem iterLoop_unsat (hvp : Vec → Vec × Vec) (upd : Vec → Vec → Vec) (nrm : Vec → ℚ)
    (L a : ℚ) : ∀ (m : Nat) (x : Vec),
    (∀ k < m, ¬ satAt hvp nrm L a (trialSeq hvp upd nrm L x k)) →
    iterLoop hvp upd nrm L a m x = (false, trialSeq hvp upd nrm L x m) := by
  intro m
  induction m with
  | zero => intro x _; rfl
  | succ m ih =>
      intro x hk
      have h0 : ¬ satAt hvp nrm L a x := hk 0 (Nat.succ_pos m)
      rw [iterLoop_succ, if_neg h0]
      rw [ih (upd x (synthGrad hvp nrm L x)) ?_, trialSeq_shift]
      intro k hlt
      rw [trialSeq_shift]
      exact hk (k + 1) (Nat.succ_lt_succ hlt)

/-- The loop returns success with the just-updated trial vector at the first
iteration whose stopping test holds. -/
theorem iterLoop_sat (hvp : Vec → Vec × Vec) (upd : Vec → Vec → Vec) (nrm : Vec → ℚ)
    (L a : ℚ) : ∀ (m k : Nat) (x : Vec), k < m →
    (∀ j < k, ¬ satAt hvp nrm L a (trialSeq hvp upd nrm L x j)) →
    satAt hvp nrm L a (trialSeq hvp upd nrm L x k) →
    iterLoop hvp upd nrm L a m x = (true, trialSeq hvp upd nrm L x (k + 1)) := by
  intro m
  induction m with
  | zero => intro k x hk; exact absurd hk (Nat.not_lt_zero k)
  | succ m ih =>
      intro k x hk hj hsat
      cases k with
      | zero =>
          have h0 : satAt hvp nrm L a x := hsat
          rw [iterLoop_succ, if_pos h0]
          rfl
      | succ k =>
          have h0 : ¬ satAt hvp nrm L a x := hj 0 (Nat.succ_pos k)
          rw [iterLoop_succ, if_neg h0]
          rw [ih k (upd x (synthGrad hvp nrm L x)) (Nat.lt_of_succ_lt_succ hk) ?_ ?_,
            trialSeq_shift]
          · intro j hlt
            rw [trialSeq_shift]
            exact hj (j + 1) (Nat.succ_lt_succ hlt)
          · rw [trialSeq_shift]
            exact hsat

/-- Whatever the solver dispatch does, the group's `L` is read, never
written. -/
theorem stepGroupRun_L (eigh : Tensor → Vec × Mat) (rayLS : (ℚ → ℚ) → ℚ → ℚ → ℚ → ℚ)
    (nrm : Vec → ℚ) (dfO : List Param → Tensor) (hessO : List Param → Tensor)
    (hvpO : List Param → Vec → Vec × Vec) (upd : Vec → Vec → Vec)
    (testing : Bool) (env : Env) (precalc cached : Option Tensor)
    (g : Group) (r : Env × Group × Option Tensor)
    (h : stepGroupRun eigh rayLS nrm dfO hessO hvpO upd testing env precalc cached g = .ok r) :
    r.2.1.L = g.L := by
  unfold stepGroupRun at h
  cases hs : g.subsolver with
  | none =>
      rw [hs] at h
      cases hE : exact eigh rayLS nrm (dfO g.params) (hessO g.params) g.params
          g.L precalc defaultDelta testing with
      | error e => rw [hE] at h; simp at h
      | ok xH =>
          rw [hE] at h
          rw [← Except.ok.inj h]
  | some u =>
      rw [hs] at h
      rw [← Except.ok.inj h]

/-- Whatever a group-step does, the group's `L` is read, never written. -/
theorem stepGroup_L (eigh : Tensor → Vec × Mat) (rayLS : (ℚ → ℚ) → ℚ → ℚ → ℚ → ℚ)
    (nrm : Vec → ℚ) (dfO : List Param → Tensor) (hessO : List Param → Tensor)
    (hvpO : List Param → Vec → Vec × Vec) (upd : Vec → Vec → Vec)
    (testing : Bool) (env : Env) (cached : Option Tensor) (hess : Bool)
    (g : Group) (r : Env × Group × Option Tensor)
    (h : stepGroup eigh rayLS nrm dfO hessO hvpO upd testing env cached hess g = .ok r) :
    r.2.1.L = g.L := by
  unfold stepGroup at h
  cases hess with
  | true =>
      rw [if_pos rfl] at h
      exact stepGroupRun_L _ _ _ _ _ _ _ _ _ _ _ _ _ h
  | false =>
      rw [if_neg (by simp)] at h
      cases cached with
      | none => simp at h
      | some hc => exact stepGroupRun_L _ _ _ _ _ _ _ _ _ _ _ _ _ h

/-- The group loop preserves the list of `L` values. -/
theorem stepGroups_L (eigh : Tensor → Vec × Mat) (rayLS : (ℚ → ℚ) → ℚ → ℚ → ℚ → ℚ)
    (nrm : Vec → ℚ) (dfO : List Param → Tensor) (hessO : List Param → Tensor)
    (hvpO : List Param → Vec → Vec × Vec) (upd : Vec → Vec → Vec) (testing : Bool) :
    ∀ (gs : List Group) (env : Env) (cached : Option Tensor) (hess : Bool)
      (r : Env × Option Tensor × List Group),
    stepGroups eigh rayLS nrm dfO hessO hvpO upd testing env cached hess gs = .ok r →
    r.2.2.map Group.L = gs.map Group.L := by
  intro gs
  induction gs with
  | nil =>
      intro env cached hess r h
      cases h
      rfl
  | cons g gs ih =>
      intro env cached hess r h
      unfold stepGroups at h
      split at h
      · simp at h
      · rename_i r1 h1
        split at h
        · simp at h
        · rename_i r2 h2
          cases h
          simp only [List.map_cons]
          rw [stepGroup_L eigh rayLS nrm dfO hessO hvpO upd testing env cached hess g r1 h1,
            ih _ _ _ _ h2]

/-- A successful `step` call does not change any group's `L`. -/
theorem step_L (eigh : Tensor → Vec × Mat) (rayLS : (ℚ → ℚ) → ℚ → ℚ → ℚ → ℚ)
    (nrm : Vec → ℚ) (dfO : List Param → Tensor) (hessO : List Param → Tensor)
    (hvpO : List Param → Vec → Vec × Vec) (upd : Vec → Vec → Vec)
    (env : Env) (s : CRN) (hess : Bool) (r : Env × CRN)
    (h : CRN.step eigh rayLS nrm dfO hessO hvpO upd env s hess = .ok r) :
    r.2.groups.map Group.L = s.groups.map Group.L := by
  unfold CRN.step at h
  split at h
  · simp at h
  · rename_i r1 h1
    cases h
    exact stepGroups_L eigh rayLS nrm dfO hessO hvpO upd s.testing s.groups env
      s.cached_hess hess r1 h1

/-- Every successful solver dispatch increments the group's dictionary
counter exactly once and leaves the group's configuration untouched. -/
theorem stepGroupRun_shape (eigh : Tensor → Vec × Mat) (rayLS : (ℚ → ℚ) → ℚ → ℚ → ℚ → ℚ)
    (nrm : Vec → ℚ) (dfO : List Param → Tensor) (hessO : List Param → Tensor)
    (hvpO : List Param → Vec → Vec × Vec) (upd : Vec → Vec → Vec)
    (testing : Bool) (env : Env) (precalc cached : Option Tensor)
    (g : Group) (r : Env × Group × Option Tensor)
    (h : stepGroupRun eigh rayLS nrm dfO hessO hvpO upd testing env precalc cached g = .ok r) :
    r.1 = envIncr env g.lazyRef ∧ groupCfg r.2.1 = groupCfg g := by
  unfold stepGroupRun at h
  cases hs : g.subsolver with
  | none =>
      rw [hs] at h
      cases hE : exact eigh rayLS nrm (dfO g.params) (hessO g.params) g.params
          g.L precalc defaultDelta testing with
      | error e => rw [hE] at h; simp at h
      | ok xH =>
          rw [hE] at h
          rw [← Except.ok.inj h]
          exact ⟨rfl, by simp [groupCfg, hs]⟩
  | some u =>
      rw [hs] at h
      rw [← Except.ok.inj h]
      exact ⟨rfl, by simp [groupCfg, hs]⟩

/-- Every successful group-step increments the group's dictionary counter
exactly once and leaves the group's configuration untouched. -/
theorem stepGroup_shape (eigh : Tensor → Vec × Mat) (rayLS : (ℚ → ℚ) → ℚ → ℚ → ℚ → ℚ)
    (nrm : Vec → ℚ) (dfO : List Param → Tensor) (hessO : List Param → Tensor)
    (hvpO : List Param → Vec → Vec × Vec) (upd : Vec → Vec → Vec)
    (testing : Bool) (env : Env) (cached : Option Tensor) (hess : Bool)
    (g : Group) (r : Env × Group × Option Tensor)
    (h : stepGroup eigh rayLS nrm dfO hessO hvpO upd testing env cached hess g = .ok r) :
    r.1 = envIncr env g.lazyRef ∧ groupCfg r.2.1 = groupCfg g := by
  unfold stepGroup at h
  cases hess with
  | true =>
      rw [if_pos rfl] at h
      exact stepGroupRun_shape _ _ _ _ _ _ _ _ _ _ _ _ _ h
  | false =>
      rw [if_neg (by simp)] at h
      cases cached with
      | none => simp at h
      | some hc => exact stepGroupRun_shape _ _ _ _ _ _ _ _ _ _ _ _ _ h

/-- The group loop increments each group's dictionary counter exactly once,
in order, and preserves every group's configuration. -/
theorem stepGroups_shape (eigh : Tensor → Vec × Mat) (rayLS : (ℚ → ℚ) → ℚ → ℚ → ℚ → ℚ)
    (nrm : Vec → ℚ) (dfO : List Param → Tensor) (hessO : List Param → Tensor)
    (hvpO : List Param → Vec → Vec × Vec) (upd : Vec → Vec → Vec) (testing : Bool) :
    ∀ (gs : List Group) (env : Env) (cached : Option Tensor) (hess : Bool)
      (r : Env × Option Tensor × List Group),
    stepGroups eigh rayLS nrm dfO hessO hvpO upd testing env cached hess gs = .ok r →
    r.1 = gs.foldl (fun e g => envIncr e g.lazyRef) env ∧
      r.2.2.map groupCfg = gs.map groupCfg := by
  intro gs
  induction gs with
  | nil =>
      intro env cached hess r h
      cases h
      exact ⟨rfl, rfl⟩
  | cons g gs ih =>
      intro env cached hess r h
      unfold stepGroups at h
      split at h
      · simp at h
      · rename_i r1 h1
        split at h
        · simp at h
        · rename_i r2 h2
          cases h
          obtain ⟨he1, hc1⟩ := stepGroup_shape eigh rayLS nrm dfO hessO hvpO upd
            testing env cached hess g r1 h1
          obtain ⟨he2, hm2⟩ := ih r1.1 r1.2.2 hess r2 h2
          constructor
          · rw [List.foldl_cons, ← he1]
            exact he2
          · simp only [List.map_cons, hm2, hc1]

/-! ### Claim theorems -/

/-- Claim C1: for every 1-D gradient `c`, symmetric Hessian `A` of matching
dimension and `L > 0`, `exact` eigendecomposes `A` into `(T, U)`, rotates the
gradient to `ct = Uᵗc`, minimizes the dual objective by calling the scalar
ray line search on `dual T ct L` with left point `0`, interior point `2` and
tolerance `delta`, and returns the step `x* = -U·(inv(τ*) ⊙ ct)` together
with the Hessian it used. -/
theorem exact_pipeline (eigh : Tensor → Vec × Mat) (rayLS : (ℚ → ℚ) → ℚ → ℚ → ℚ → ℚ)
    (nrm : Vec → ℚ) (df A : Tensor) (params : List Param) (L delta : ℚ) (n : Nat)
    (_hL : 0 < L) (hc : df.dims = [n]) (hA : A.dims = [n, n])
    (hsym : ∀ i j, A.entry i j = A.entry j i) :
    exact eigh rayLS nrm df A params L none delta false =
      .ok (rollup (vneg (mvM (eigh A).2 (vmul
          (inv (eigh A).1 L
            (rayLS (dual (eigh A).1 (mvM (transposeM (eigh A).2) df.toVec) L) 0 2 delta))
          (mvM (transposeM (eigh A).2) df.toVec)))) params, A) := by
  have h1 : df.dim = 1 := by simp [Tensor.dim, hc]
  have h2 : A.dim = 2 := by simp [Tensor.dim, hA]
  have h3 : df.size0 = some n := by simp [Tensor.size0, hc]
  have h4 : A.size0 = some n := by simp [Tensor.size0, hA]
  have h5 : A.symGap = 0 := symGap_eq_zero A hsym
  simp [exact, h1, h2, h3, h4, h5]

/-- Witness for C1 at a concrete input: a `1 × 1` Hessian, a one-entry
gradient, and arbitrary concrete oracles. -/
theorem exact_pipeline_witness :
    (0 : ℚ) < 1 ∧
      exact (fun _ => ([2], [[1]])) (fun _ _ _ _ => 0) (fun _ => 0)
        ⟨[1], [1]⟩ ⟨[1, 1], [2]⟩ [⟨[1], none⟩] 1 none (1 / 100000000) false =
        .ok (rollup (vneg (mvM [[1]] (vmul
            (inv [2] 1 ((fun (_ : ℚ → ℚ) (_ _ _ : ℚ) => (0 : ℚ)) (dual [2]
              (mvM (transposeM [[1]]) (Tensor.toVec ⟨[1], [1]⟩)) 1) 0 2 (1 / 100000000)))
            (mvM (transposeM [[1]]) (Tensor.toVec ⟨[1], [1]⟩))))) [⟨[1], none⟩],
          ⟨[1, 1], [2]⟩) :=
  ⟨by norm_num,
    exact_pipeline (fun _ => ([2], [[1]])) (fun _ _ _ _ => 0) (fun _ => 0)
      ⟨[1], [1]⟩ ⟨[1, 1], [2]⟩ [⟨[1], none⟩] 1 (1 / 100000000) 1
      (by norm_num) rfl rfl
      (by intro i j
          simp [Tensor.entry, Tensor.cols, Nat.mul_one, Nat.add_comm])⟩

/-- Claim C2: once the shape checks pass on a square Hessian, `exact` fails
with the not-symmetric error exactly when `max|Aᵗ - A| > 0.1`, and proceeds
past the symmetry check for every `A` within the tolerance.  The source
compares the plain maximum of `Aᵗ - A` against `0.1`; on a square matrix this
agrees with the maximum absolute entry because the entries of `Aᵗ - A` come
in `±` pairs. -/
theorem exact_symmetry_iff (eigh : Tensor → Vec × Mat) (rayLS : (ℚ → ℚ) → ℚ → ℚ → ℚ → ℚ)
    (nrm : Vec → ℚ) (df A : Tensor) (params : List Param) (L delta : ℚ)
    (testing : Bool) (n : Nat) (hc : df.dims = [n]) (hA : A.dims = [n, n])
    (_hn : 0 < n) :
    exact eigh rayLS nrm df A params L none delta testing = .error .notSymmetric ↔
      1 / 10 < A.symAbsGap := by
  have h1 : df.dim = 1 := by simp [Tensor.dim, hc]
  have h2 : A.dim = 2 := by simp [Tensor.dim, hA]
  have h3 : df.size0 = some n := by simp [Tensor.size0, hc]
  have h4 : A.size0 = some n := by simp [Tensor.size0, hA]
  rw [← symGap_eq_symAbsGap A n hA]
  by_cases hs : 1 / 10 < A.symGap
  · have hs' : (10 : ℚ)⁻¹ < A.symGap := by
      rw [show ((10 : ℚ)⁻¹ = 1 / 10) from by norm_num]
      exact hs
    simp [exact, h1, h2, h3, h4, hs]
    exact iff_of_true (fun h' => absurd hs' (not_lt.mpr h')) hs'
  · simp [exact, h1, h2, h3, h4, hs]
    split <;> simp

/-- Witness for C2 at a concrete asymmetric input: `A = [[1, 2], [0, 1]]` has
`max|Aᵗ - A| = 2 > 0.1`, so the call fails with the not-symmetric error. -/
theorem exact_symmetry_iff_witness :
    (exact (fun _ => ([2], [[1]])) (fun _ _ _ _ => 0) (fun _ => 0)
        ⟨[2], [1, 1]⟩ ⟨[2, 2], [1, 2, 0, 1]⟩ [⟨[1, 1], none⟩] 1 none
        (1 / 100000000) false = .error .notSymmetric ↔
      1 / 10 < Tensor.symAbsGap ⟨[2, 2], [1, 2, 0, 1]⟩) ∧ (0 : ℕ) < 2 :=
  ⟨exact_symmetry_iff (fun _ => ([2], [[1]])) (fun _ _ _ _ => 0) (fun _ => 0)
      ⟨[2], [1, 1]⟩ ⟨[2, 2], [1, 2, 0, 1]⟩ [⟨[1, 1], none⟩] 1 (1 / 100000000)
      false 2 rfl rfl (by decide), by decide⟩

/-- Claim C3: whenever the gradient is not exactly 1-dimensional, or the
Hessian has more than 2 dimensions, or their first dimensions differ, `exact`
fails with one of the shape-validation errors; and because these checks run
before the eigendecomposition, the line search and the step computation, the
result does not depend on those oracles at all. -/
theorem exact_shape_checks (eigh eigh2 : Tensor → Vec × Mat)
    (rayLS rayLS2 : (ℚ → ℚ) → ℚ → ℚ → ℚ → ℚ) (nrm nrm2 : Vec → ℚ)
    (df hessOracle : Tensor) (params : List Param) (L : ℚ) (hess : Option Tensor)
    (delta : ℚ) (testing : Bool)
    (hbad : df.dim ≠ 1 ∨ 2 < (hess.getD hessOracle).dim ∨
      df.size0 ≠ (hess.getD hessOracle).size0) :
    (∃ e, exact eigh rayLS nrm df hessOracle params L hess delta testing = .error e ∧
        e.isShapeErr = true) ∧
      exact eigh rayLS nrm df hessOracle params L hess delta testing =
        exact eigh2 rayLS2 nrm2 df hessOracle params L hess delta testing := by
  by_cases h1 : df.dim = 1
  · by_cases h2 : 2 < (hess.getD hessOracle).dim
    · constructor
      · refine ⟨.notMatrix, ?_, rfl⟩
        simp [exact, h1, h2]
      · simp [exact, h1, h2]
    · have h3 : df.size0 ≠ (hess.getD hessOracle).size0 := by
        rcases hbad with h | h | h
        · exact absurd h1 h
        · exact absurd h h2
        · exact h
      constructor
      · refine ⟨.dimMismatch, ?_, rfl⟩
        simp [exact, h1, h2, h3]
      · simp [exact, h1, h2, h3]
  · constructor
    · refine ⟨.notVector, ?_, rfl⟩
      simp [exact, h1]
    · simp [exact, h1]

/-- Witness for C3 at a concrete input: a 2-D "gradient" fails the first
shape check no matter which oracles are supplied. -/
theorem exact_shape_checks_witness :
    (∃ e, exact (fun _ => ([2], [[1]])) (fun _ _ _ _ => 0) (fun _ => 0)
        ⟨[2, 1], [1, 1]⟩ ⟨[2, 2], [1, 0, 0, 1]⟩ [⟨[1, 1], none⟩] 1 none
        (1 / 100000000) false = .error e ∧ e.isShapeErr = true) ∧
      exact (fun _ => ([2], [[1]])) (fun _ _ _ _ => 0) (fun _ => 0)
        ⟨[2, 1], [1, 1]⟩ ⟨[2, 2], [1, 0, 0, 1]⟩ [⟨[1, 1], none⟩] 1 none
        (1 / 100000000) false =
      exact (fun _ => ([0], [[5]])) (fun _ _ _ _ => 7) (fun _ => 9)
        ⟨[2, 1], [1, 1]⟩ ⟨[2, 2], [1, 0, 0, 1]⟩ [⟨[1, 1], none⟩] 1 none
        (1 / 100000000) false :=
  exact_shape_checks (fun _ => ([2], [[1]])) (fun _ => ([0], [[5]]))
    (fun _ _ _ _ => 0) (fun _ _ _ _ => 7) (fun _ => 0) (fun _ => 9)
    ⟨[2, 1], [1, 1]⟩ ⟨[2, 2], [1, 0, 0, 1]⟩ [⟨[1, 1], none⟩] 1 none
    (1 / 100000000) false (Or.inl (by decide))

/-- Claim C6: with testing mode enabled (and the input checks passing),
`exact` raises the optimum-not-reached error if and only if the maximum
absolute entry of the recomputed stationarity residual
`c + (L/2)·‖x*‖·x* + A·x*` is at least `0.01`; with testing mode disabled,
no call of `exact` whatsoever can produce that error. -/
theorem exact_testing_iff (eigh : Tensor → Vec × Mat) (rayLS : (ℚ → ℚ) → ℚ → ℚ → ℚ → ℚ)
    (nrm : Vec → ℚ) (df A : Tensor) (params : List Param) (L delta : ℚ)
    (n : Nat) (xstar : Vec) (hc : df.dims = [n]) (hA : A.dims = [n, n])
    (hsym : ∀ i j, A.entry i j = A.entry j i)
    (hx : xstar = vneg (mvM (eigh A).2 (vmul
      (inv (eigh A).1 L
        (rayLS (dual (eigh A).1 (mvM (transposeM (eigh A).2) df.toVec) L) 0 2 delta))
      (mvM (transposeM (eigh A).2) df.toVec)))) :
    (exact eigh rayLS nrm df A params L none delta true = .error .notOptimal ↔
      1 / 100 ≤ maxAbs (vadd (vadd df.toVec (smul (L / 2 * nrm xstar) xstar)) (A.mv xstar)))
    ∧ ∀ (df2 hessOracle2 : Tensor) (params2 : List Param) (L2 : ℚ)
        (hess2 : Option Tensor) (delta2 : ℚ),
        exact eigh rayLS nrm df2 hessOracle2 params2 L2 hess2 delta2 false ≠
          .error .notOptimal := by
  have h1 : df.dim = 1 := by simp [Tensor.dim, hc]
  have h2 : A.dim = 2 := by simp [Tensor.dim, hA]
  have h3 : df.size0 = some n := by simp [Tensor.size0, hc]
  have h4 : A.size0 = some n := by simp [Tensor.size0, hA]
  have h5 : ¬ ((10 : ℚ)⁻¹ < A.symGap) := by
    rw [symGap_eq_zero A hsym]
    norm_num
  constructor
  · have hmain : exact eigh rayLS nrm df A params L none delta true =
        if 1 / 100 ≤ maxAbs (vadd (vadd df.toVec (smul (L / 2 * nrm xstar) xstar)) (A.mv xstar))
        then .error .notOptimal
        else .ok (rollup xstar params, A) := by
      subst hx
      simp [exact, h1, h2, h3, h4, h5]
    rw [hmain]
    by_cases hr : 1 / 100 ≤ maxAbs (vadd (vadd df.toVec (smul (L / 2 * nrm xstar) xstar)) (A.mv xstar))
    · rw [if_pos hr]
      exact iff_of_true rfl hr
    · rw [if_neg hr]
      exact iff_of_false (by simp) hr
  · intro df2 hessOracle2 params2 L2 hess2 delta2
    simp only [exact]
    split
    · simp
    · split
      · simp
      · split
        · simp
        · split
          · simp
          · simp

/-- Witness for C6 at a concrete input where the residual is exactly zero,
so testing mode does not raise. -/
theorem exact_testing_iff_witness :
    (exact (fun _ => ([2], [[1]])) (fun _ _ _ _ => 0) (fun _ => 0)
        ⟨[1], [1]⟩ ⟨[1, 1], [2]⟩ [⟨[1], none⟩] 1 none (1 / 100000000) true =
          .error .notOptimal ↔
      1 / 100 ≤ maxAbs (vadd (vadd (Tensor.toVec ⟨[1], [1]⟩)
        (smul ((1 : ℚ) / 2 * 0) [-(1 / 2)]))
        (Tensor.mv ⟨[1, 1], [2]⟩ [-(1 / 2)]))) ∧
    exact (fun _ => ([2], [[1]])) (fun _ _ _ _ => 0) (fun _ => 0)
        ⟨[3], [1, 1, 1]⟩ ⟨[1, 1], [2]⟩ [⟨[1], none⟩] 5 none (1 / 100000000) false ≠
      .error .notOptimal := by
  have h := exact_testing_iff (fun _ => ([2], [[1]])) (fun _ _ _ _ => 0) (fun _ => 0)
    ⟨[1], [1]⟩ ⟨[1, 1], [2]⟩ [⟨[1], none⟩] 1 (1 / 100000000) 1 [-(1 / 2)]
    rfl rfl
    (by intro i j
        simp [Tensor.entry, Tensor.cols, Nat.mul_one, Nat.add_comm])
    (by simp [mvM, transposeM, dotv, vmul, vneg, inv, Tensor.toVec,
      List.range_succ, List.range_zero])
  exact ⟨h.1, h.2 ⟨[3], [1, 1, 1]⟩ ⟨[1, 1], [2]⟩ [⟨[1], none⟩] 5 none (1 / 100000000)⟩

/-- Claim C8: `exact` is deterministic and stateless.  In the embedding the
function is pure by construction, so two calls with identical arguments are
definitionally equal; beyond that, its result is fully determined by the
inputs the specification lists (gradient, Hessian, `L`, `delta`, testing
flag) together with the parameter shapes: the parameter collection enters
only through the shapes used to roll the flat step back up, so any two
shape-equal parameter collections produce identical outputs. -/
theorem exact_stateless (eigh : Tensor → Vec × Mat) (rayLS : (ℚ → ℚ) → ℚ → ℚ → ℚ → ℚ)
    (nrm : Vec → ℚ) (df hessOracle : Tensor) (params params2 : List Param)
    (L : ℚ) (hess : Option Tensor) (delta : ℚ) (testing : Bool)
    (hshape : params.map (fun p => p.data.length) = params2.map (fun p => p.data.length)) :
    exact eigh rayLS nrm df hessOracle params L hess delta testing =
      exact eigh rayLS nrm df hessOracle params2 L hess delta testing := by
  by_cases h1 : df.dim = 1
  · by_cases h2 : 2 < (hess.getD hessOracle).dim
    · simp [exact, h1, h2]
    · by_cases h3 : df.size0 = (hess.getD hessOracle).size0
      · by_cases h4 : (10 : ℚ)⁻¹ < (hess.getD hessOracle).symGap
        · simp [exact, h1, h2, h3, h4]
        · simp [exact, h1, h2, h3, h4]
          split
          all_goals first
            | rfl
            | exact rollup_congr _ params params2 hshape
            | rw [rollup_congr _ params params2 hshape]
      · simp [exact, h1, h2, h3]
  · simp [exact, h1]

/-- Witness for C8: two different parameter collections with equal shapes
(and different gradient state) receive the same step. -/
theorem exact_stateless_witness :
    ([⟨[5, 6], some [1]⟩, ⟨[7], none⟩] : List Param).map (fun p => p.data.length) =
        ([⟨[0, 0], none⟩, ⟨[9], some [2]⟩] : List Param).map (fun p => p.data.length) ∧
      exact (fun _ => ([2], [[1]])) (fun _ _ _ _ => 0) (fun _ => 0)
        ⟨[1], [1]⟩ ⟨[1, 1], [2]⟩ [⟨[5, 6], some [1]⟩, ⟨[7], none⟩] 1 none
        (1 / 100000000) false =
      exact (fun _ => ([2], [[1]])) (fun _ _ _ _ => 0) (fun _ => 0)
        ⟨[1], [1]⟩ ⟨[1, 1], [2]⟩ [⟨[0, 0], none⟩, ⟨[9], some [2]⟩] 1 none
        (1 / 100000000) false :=
  ⟨by decide,
    exact_stateless (fun _ => ([2], [[1]])) (fun _ _ _ _ => 0) (fun _ => 0)
      ⟨[1], [1]⟩ ⟨[1, 1], [2]⟩ [⟨[5, 6], some [1]⟩, ⟨[7], none⟩]
      [⟨[0, 0], none⟩, ⟨[9], some [2]⟩] 1 none (1 / 100000000) false (by decide)⟩

/-- Claim C4: the trial vector of `iterative` starts at zero; after each inner
update the function returns `(true, x)` immediately when the stopping rule
`‖g‖ < rel_acc·‖df‖` holds for the synthetic gradient
`g = df + Hx + (L/2)‖x‖x` at the pre-update trial vector; otherwise it runs
all `max_iters` iterations and returns `(false, x)` with the last trial
vector — it is total, so it never raises — and with `max_iters = 0` it
returns `(false, x)` for the zero trial vector. -/
theorem iterative_contract (hvp : Vec → Vec × Vec) (upd : Vec → Vec → Vec) (nrm : Vec → ℚ)
    (params : List Param) (L rel_acc : ℚ) :
    iterative hvp upd nrm params L 0 rel_acc = (false, rollup (zerosLike params) params)
    ∧ (∀ max_iters : Nat,
        (∀ k < max_iters,
          ¬ satAt hvp nrm L rel_acc (trialSeq hvp upd nrm L (zerosLike params) k)) →
        iterative hvp upd nrm params L max_iters rel_acc =
          (false, rollup (trialSeq hvp upd nrm L (zerosLike params) max_iters) params))
    ∧ (∀ (max_iters k : Nat), k < max_iters →
        (∀ j < k, ¬ satAt hvp nrm L rel_acc (trialSeq hvp upd nrm L (zerosLike params) j)) →
        satAt hvp nrm L rel_acc (trialSeq hvp upd nrm L (zerosLike params) k) →
        iterative hvp upd nrm params L max_iters rel_acc =
          (true, rollup (trialSeq hvp upd nrm L (zerosLike params) (k + 1)) params)) := by
  refine ⟨rfl, ?_, ?_⟩
  · intro m hm
    unfold iterative
    rw [iterLoop_unsat hvp upd nrm L rel_acc m (zerosLike params) hm]
  · intro m k hk hj hs
    unfold iterative
    rw [iterLoop_sat hvp upd nrm L rel_acc m k (zerosLike params) hk hj hs]

/-- Witness for C4: on a one-dimensional problem with a generous relative
tolerance, the first iteration already satisfies the stopping rule, so the
call returns success immediately. -/
theorem iterative_contract_witness :
    satAt (fun x => (x, [3])) (fun v => (v.map (fun a => |a|)).sum) 1 2
        (trialSeq (fun x => (x, [3])) (fun x g => vadd x (vneg g))
          (fun v => (v.map (fun a => |a|)).sum) 1 (zerosLike [⟨[5], none⟩]) 0) ∧
      iterative (fun x => (x, [3])) (fun x g => vadd x (vneg g))
        (fun v => (v.map (fun a => |a|)).sum) [⟨[5], none⟩] 1 1 2 =
      (true, rollup (trialSeq (fun x => (x, [3])) (fun x g => vadd x (vneg g))
        (fun v => (v.map (fun a => |a|)).sum) 1 (zerosLike [⟨[5], none⟩]) 1)
        [⟨[5], none⟩]) := by
  have hs : satAt (fun x => (x, [3])) (fun v => (v.map (fun a => |a|)).sum) 1 2
      (trialSeq (fun x => (x, [3])) (fun x g => vadd x (vneg g))
        (fun v => (v.map (fun a => |a|)).sum) 1 (zerosLike [⟨[5], none⟩]) 0) := by
    simp [satAt, synthGrad, trialSeq, zerosLike, flattenParams, vadd, smul]
  refine ⟨hs, ?_⟩
  exact (iterative_contract (fun x => (x, [3])) (fun x g => vadd x (vneg g))
    (fun v => (v.map (fun a => |a|)).sum) [⟨[5], none⟩] 1 2).2.2 1 0
    (Nat.zero_lt_one) (fun j hj => absurd hj (Nat.not_lt_zero j)) hs

/-- Claim C5: constructing the optimizer with `L ≤ 0` raises the
invalid-configuration error before any state is set up; with `L > 0`
construction succeeds, `L` is stored in every parameter group, and no `step`
call ever changes it — `L` is validated only at construction and never
re-checked (the step path has no `L` validation at all, as the last conjunct
shows by quantifying over every successful step). -/
theorem init_validates_L (env : Env) (lazyRef : Nat) (pgs : List (List Param))
    (L : ℚ) (sub : Option Unit) (sargs : Option SubArgs) (mi : Nat) (ra : ℚ)
    (vb tst : Bool) :
    (L ≤ 0 → CRN.init env lazyRef pgs L sub sargs mi ra vb tst = .error .invalidL)
    ∧ (0 < L → ∃ env2 s, CRN.init env lazyRef pgs L sub sargs mi ra vb tst = .ok (env2, s) ∧
        s.groups.map Group.L = pgs.map (fun _ => L))
    ∧ ∀ (eigh : Tensor → Vec × Mat) (rayLS : (ℚ → ℚ) → ℚ → ℚ → ℚ → ℚ)
        (nrm : Vec → ℚ) (dfO hessO : List Param → Tensor)
        (hvpO : List Param → Vec → Vec × Vec) (upd : Vec → Vec → Vec)
        (env3 : Env) (s : CRN) (hess : Bool) (r : Env × CRN),
        CRN.step eigh rayLS nrm dfO hessO hvpO upd env3 s hess = .ok r →
        r.2.groups.map Group.L = s.groups.map Group.L := by
  refine ⟨?_, ?_, ?_⟩
  · intro hL
    simp [CRN.init, hL]
  · intro hL
    refine ⟨envInitLazy env lazyRef,
      { groups := pgs.map (fun ps =>
          { params := ps, L := L, subsolver := sub,
            subsolver_args := sargs.getD ⟨1 / 100⟩,
            max_iters := mi, rel_acc := ra, lazyRef := lazyRef }),
        verbose := vb, testing := tst, hessAttr := none, cached_hess := none },
      ?_, ?_⟩
    · simp [CRN.init, not_le.mpr hL]
    · induction pgs with
      | nil => rfl
      | cons p ps ih => simp only [List.map_cons, ih]
  · intro eigh rayLS nrm dfO hessO hvpO upd env3 s hess r h
    exact step_L eigh rayLS nrm dfO hessO hvpO upd env3 s hess r h

/-- Witness for C5: construction fails at `L = -1`, succeeds at `L = 1`
storing `L` in the single group, and a concrete successful step leaves the
stored `L` untouched. -/
theorem init_validates_L_witness :
    CRN.init sharedLazyEnv 0 [[⟨[1], none⟩]] (-1) none none 100 (1 / 10) true false =
        .error .invalidL
    ∧ (∃ env2 s, CRN.init sharedLazyEnv 0 [[⟨[1], none⟩]] 1 none none 100 (1 / 10)
        true false = .ok (env2, s) ∧
        s.groups.map Group.L = [[(⟨[1], none⟩ : Param)]].map (fun _ => (1 : ℚ)))
    ∧ (⟨[⟨[⟨[1 / 2], none⟩], 1, none, ⟨1 / 100⟩, 100, 1 / 10, 0⟩], true, false,
          none, some ⟨[1, 1], [2]⟩⟩ : CRN).groups.map Group.L =
        (⟨[⟨[⟨[1], none⟩], 1, none, ⟨1 / 100⟩, 100, 1 / 10, 0⟩], true, false,
          none, none⟩ : CRN).groups.map Group.L := by
  have hstep : CRN.step demoEigh demoLS demoNrm demoDf demoHessO demoHvp demoUpd
      [⟨1, 0, 0⟩]
      ⟨[⟨[⟨[1], none⟩], 1, none, ⟨1 / 100⟩, 100, 1 / 10, 0⟩], true, false, none, none⟩
      true =
      .ok ([⟨1, 1, 0⟩],
        ⟨[⟨[⟨[1 / 2], none⟩], 1, none, ⟨1 / 100⟩, 100, 1 / 10, 0⟩], true, false, none,
          some ⟨[1, 1], [2]⟩⟩) := by
    simp [CRN.step, stepGroups, stepGroup, stepGroupRun, exact, envIncr, applyStep,
      demoEigh, demoLS, demoNrm, demoDf, demoHessO, demoHvp, demoUpd,
      Tensor.dim, Tensor.size0, Tensor.symGap, idxPairs, Tensor.entry,
      Tensor.cols, Tensor.rows, mvM, transposeM, dotv, vmul, vadd, vneg, smul, inv,
      dual, maxAbs, rollup, Tensor.mv, Tensor.toVec, List.range_succ, List.range_zero,
      List.flatMap_cons, List.flatMap_nil, Function.comp, defaultDelta, emptyLazy]
    norm_num
  refine ⟨(init_validates_L sharedLazyEnv 0 [[⟨[1], none⟩]] (-1) none none 100 (1 / 10)
      true false).1 (by norm_num),
    (init_validates_L sharedLazyEnv 0 [[⟨[1], none⟩]] 1 none none 100 (1 / 10)
      true false).2.1 (by norm_num),
    (init_validates_L sharedLazyEnv 0 [[⟨[1], none⟩]] 1 none none 100 (1 / 10)
      true false).2.2 demoEigh demoLS demoNrm demoDf demoHessO demoHvp demoUpd
      [⟨1, 0, 0⟩] _ true _ hstep⟩

/-- Claim C7: for every call of `step` — any number of groups, either solver
path, fresh or cached Hessian — that returns normally: (i) the dictionary
counter of each group is incremented by exactly one per group, in order, and
nothing in any group's configuration (`L`, `rel_acc`, `max_iters`, subsolver
selection and arguments, dictionary reference) nor in the instance flags
changes; (ii) on the exact path (with either `hess` value) the group's
parameters are updated by adding the rolled-up components of the step that
`exact` computed, and the Hessian cache takes the returned Hessian; (iii) on
the iterative path the parameters (their gradient accumulators zeroed by the
inner loop when it ran) are updated by adding the components of the step
`iterative` computed, with the cache unchanged; (iv) the in-place add itself
never touches any parameter's gradient state (the `no_grad` update); (v) the
counter increment reads back as exactly `+ 1`.  The model returns only the
mutated state, mirroring the `return None`. -/
theorem step_applies_and_counts (eigh : Tensor → Vec × Mat)
    (rayLS : (ℚ → ℚ) → ℚ → ℚ → ℚ → ℚ) (nrm : Vec → ℚ)
    (dfO hessO : List Param → Tensor) (hvpO : List Param → Vec → Vec × Vec)
    (upd : Vec → Vec → Vec) :
    (∀ (env : Env) (s : CRN) (hess : Bool) (env2 : Env) (s2 : CRN),
        CRN.step eigh rayLS nrm dfO hessO hvpO upd env s hess = .ok (env2, s2) →
        env2 = s.groups.foldl (fun e g => envIncr e g.lazyRef) env
        ∧ s2.groups.map groupCfg = s.groups.map groupCfg
        ∧ s2.verbose = s.verbose ∧ s2.testing = s.testing ∧ s2.hessAttr = s.hessAttr)
    ∧ (∀ (testing : Bool) (env : Env) (cached : Option Tensor) (g : Group)
        (x : List Vec) (H : Tensor), g.subsolver = none →
        (exact eigh rayLS nrm (dfO g.params) (hessO g.params) g.params g.L none
            defaultDelta testing = .ok (x, H) →
          stepGroup eigh rayLS nrm dfO hessO hvpO upd testing env cached true g =
            .ok (envIncr env g.lazyRef, { g with params := applyStep g.params x },
              some H))
        ∧ ∀ hc : Tensor,
            exact eigh rayLS nrm (dfO g.params) (hessO g.params) g.params g.L (some hc)
                defaultDelta testing = .ok (x, H) →
            stepGroup eigh rayLS nrm dfO hessO hvpO upd testing env (some hc) false g =
              .ok (envIncr env g.lazyRef, { g with params := applyStep g.params x },
                some H))
    ∧ (∀ (testing : Bool) (env : Env) (cached : Option Tensor) (g : Group) (u : Unit),
        g.subsolver = some u →
        (stepGroup eigh rayLS nrm dfO hessO hvpO upd testing env cached true g =
          .ok (envIncr env g.lazyRef,
            { g with params := (applyStep
                (if g.max_iters = 0 then g.params else clearGrads g.params)
                (iterative (hvpO g.params) upd nrm g.params g.L g.max_iters g.rel_acc).2) },
            cached))
        ∧ ∀ hc : Tensor,
            stepGroup eigh rayLS nrm dfO hessO hvpO upd testing env (some hc) false g =
              .ok (envIncr env g.lazyRef,
                { g with params := (applyStep
                    (if g.max_iters = 0 then g.params else clearGrads g.params)
                    (iterative (hvpO g.params) upd nrm g.params g.L g.max_iters g.rel_acc).2) },
                some hc))
    ∧ (∀ (ps : List Param) (xs : List Vec),
        (applyStep ps xs).map Param.grad = ps.map Param.grad)
    ∧ (∀ (env : Env) (rf : Nat), rf < env.length →
        ((envIncr env rf).getD rf emptyLazy).cur_iter =
          (env.getD rf emptyLazy).cur_iter + 1) := by
  refine ⟨?_, ?_, ?_, applyStep_grads, ?_⟩
  · intro env s hess env2 s2 h
    unfold CRN.step at h
    split at h
    · simp at h
    · rename_i r1 h1
      obtain ⟨he, hm⟩ := stepGroups_shape eigh rayLS nrm dfO hessO hvpO upd s.testing
        s.groups env s.cached_hess hess r1 h1
      injection h with h2
      injection h2 with h3 h4
      rw [← h3, ← h4]
      exact ⟨he, hm, rfl, rfl, rfl⟩
  · intro testing env cached g x H hsub
    constructor
    · intro hex
      simp only [stepGroup, stepGroupRun, hsub, hex, if_true]
    · intro hc hex
      simp only [stepGroup, stepGroupRun, hsub, hex, Bool.false_eq_true, if_false]
  · intro testing env cached g u hsub
    constructor
    · simp only [stepGroup, stepGroupRun, hsub, if_true]
    · intro hc
      simp only [stepGroup, stepGroupRun, hsub, Bool.false_eq_true, if_false]
  · intro env rf hr
    unfold envIncr
    rw [getD_set_self env rf _ emptyLazy hr]

/-- Witness for C7: a concrete full `step` call on the exact path (checking
the counter fold and the configuration frame), a concrete exact-path group
step with the computed step applied, a concrete iterative-path group step on
a subsolver-configured group whose parameter carries a gradient accumulator,
the gradient-preservation of the in-place add, and the `+ 1` counter read. -/
theorem step_applies_and_counts_witness :
    ([⟨1, 1, 0⟩] : Env) =
        ((⟨[⟨[⟨[1], none⟩], 1, none, ⟨1 / 100⟩, 100, 1 / 10, 0⟩], true, false, none,
          none⟩ : CRN)).groups.foldl (fun e g => envIncr e g.lazyRef) [⟨1, 0, 0⟩]
    ∧ (⟨[⟨[⟨[1 / 2], none⟩], 1, none, ⟨1 / 100⟩, 100, 1 / 10, 0⟩], true, false, none,
          some ⟨[1, 1], [2]⟩⟩ : CRN).groups.map groupCfg =
        (⟨[⟨[⟨[1], none⟩], 1, none, ⟨1 / 100⟩, 100, 1 / 10, 0⟩], true, false, none,
          none⟩ : CRN).groups.map groupCfg
    ∧ stepGroup demoEigh demoLS demoNrm demoDf demoHessO demoHvp demoUpd false
        [⟨1, 0, 0⟩] none true ⟨[⟨[1], none⟩], 1, none, ⟨1 / 100⟩, 100, 1 / 10, 0⟩ =
      .ok (envIncr [⟨1, 0, 0⟩] 0,
        { (⟨[⟨[1], none⟩], 1, none, ⟨1 / 100⟩, 100, 1 / 10, 0⟩ : Group) with
          params := applyStep [⟨[1], none⟩] [[-(1 / 2)]] }, some ⟨[1, 1], [2]⟩)
    ∧ stepGroup demoEigh demoLS demoNrm demoDf demoHessO demoHvp demoUpd false
        [⟨1, 0, 0⟩] none true ⟨[⟨[1], some [4]⟩], 1, some (), ⟨1 / 100⟩, 2, 1 / 10, 0⟩ =
      .ok (envIncr [⟨1, 0, 0⟩] 0,
        { (⟨[⟨[1], some [4]⟩], 1, some (), ⟨1 / 100⟩, 2, 1 / 10, 0⟩ : Group) with
          params := (applyStep
            (if (⟨[⟨[1], some [4]⟩], 1, some (), ⟨1 / 100⟩, 2, 1 / 10, 0⟩ : Group).max_iters = 0
              then [⟨[1], some [4]⟩] else clearGrads [⟨[1], some [4]⟩])
            (iterative (demoHvp [⟨[1], some [4]⟩]) demoUpd demoNrm [⟨[1], some [4]⟩]
              1 2 (1 / 10)).2) }, none)
    ∧ (applyStep [⟨[1], some [4]⟩] [[-(1 / 2)]]).map Param.grad =
        ([⟨[1], some [4]⟩] : List Param).map Param.grad
    ∧ ((envIncr [⟨1, 0, 0⟩] 0).getD 0 emptyLazy).cur_iter =
        (([⟨1, 0, 0⟩] : Env).getD 0 emptyLazy).cur_iter + 1 := by
  have h := step_applies_and_counts demoEigh demoLS demoNrm demoDf demoHessO demoHvp
    demoUpd
  have hstep : CRN.step demoEigh demoLS demoNrm demoDf demoHessO demoHvp demoUpd
      [⟨1, 0, 0⟩]
      ⟨[⟨[⟨[1], none⟩], 1, none, ⟨1 / 100⟩, 100, 1 / 10, 0⟩], true, false, none, none⟩
      true =
      .ok ([⟨1, 1, 0⟩],
        ⟨[⟨[⟨[1 / 2], none⟩], 1, none, ⟨1 / 100⟩, 100, 1 / 10, 0⟩], true, false, none,
          some ⟨[1, 1], [2]⟩⟩) := by
    simp [CRN.step, stepGroups, stepGroup, stepGroupRun, exact, envIncr, applyStep,
      demoEigh, demoLS, demoNrm, demoDf, demoHessO, demoHvp, demoUpd,
      Tensor.dim, Tensor.size0, Tensor.symGap, idxPairs, Tensor.entry,
      Tensor.cols, Tensor.rows, mvM, transposeM, dotv, vmul, vadd, vneg, smul, inv,
      dual, maxAbs, rollup, Tensor.mv, Tensor.toVec, List.range_succ, List.range_zero,
      List.flatMap_cons, List.flatMap_nil, Function.comp, defaultDelta, emptyLazy]
    norm_num
  have hex : exact demoEigh demoLS demoNrm (demoDf [⟨[1], none⟩])
      (demoHessO [⟨[1], none⟩]) [⟨[1], none⟩] 1 none defaultDelta false =
      .ok ([[-(1 / 2)]], ⟨[1, 1], [2]⟩) := by
    simp [exact, demoEigh, demoLS, demoNrm, demoDf, demoHessO,
      Tensor.dim, Tensor.size0, Tensor.symGap, idxPairs, Tensor.entry,
      Tensor.cols, Tensor.rows, mvM, transposeM, dotv, vmul, vadd, vneg, smul, inv,
      dual, maxAbs, rollup, Tensor.mv, Tensor.toVec, List.range_succ, List.range_zero,
      List.flatMap_cons, List.flatMap_nil, Function.comp, defaultDelta]
  obtain ⟨hfold, hcfg, -, -, -⟩ := h.1 [⟨1, 0, 0⟩]
    ⟨[⟨[⟨[1], none⟩], 1, none, ⟨1 / 100⟩, 100, 1 / 10, 0⟩], true, false, none, none⟩
    true [⟨1, 1, 0⟩]
    ⟨[⟨[⟨[1 / 2], none⟩], 1, none, ⟨1 / 100⟩, 100, 1 / 10, 0⟩], true, false, none,
      some ⟨[1, 1], [2]⟩⟩ hstep
  refine ⟨hfold, hcfg, ?_, ?_, h.2.2.2.1 [⟨[1], some [4]⟩] [[-(1 / 2)]],
    h.2.2.2.2 [⟨1, 0, 0⟩] 0 (by decide)⟩
  · exact (h.2.1 false [⟨1, 0, 0⟩] none
      ⟨[⟨[1], none⟩], 1, none, ⟨1 / 100⟩, 100, 1 / 10, 0⟩ [[-(1 / 2)]] ⟨[1, 1], [2]⟩
      rfl).1 hex
  · exact (h.2.2.1 false [⟨1, 0, 0⟩] none
      ⟨[⟨[1], some [4]⟩], 1, some (), ⟨1 / 100⟩, 2, 1 / 10, 0⟩ () rfl).1

/-- Claim C10: the constructor only initializes the attribute `self.hess`
(to `None`); the `self.cached_hess` attribute it never creates is exactly the
one `step` reads when called with `hess=False`, and that attribute is only
assigned on the exact path.  Hence calling `step(closure, hess=False)` on an
instance on which the exact path has never run fails with the attribute
error, whatever the subsolver configuration. -/
theorem step_missing_cached_hess :
    (∀ (env : Env) (lazyRef : Nat) (pgs : List (List Param)) (L : ℚ)
        (sub : Option Unit) (sargs : Option SubArgs) (mi : Nat) (ra : ℚ)
        (vb tst : Bool) (env2 : Env) (s : CRN),
        CRN.init env lazyRef pgs L sub sargs mi ra vb tst = .ok (env2, s) →
        s.cached_hess = none ∧ s.hessAttr = none)
    ∧ ∀ (eigh : Tensor → Vec × Mat) (rayLS : (ℚ → ℚ) → ℚ → ℚ → ℚ → ℚ)
        (nrm : Vec → ℚ) (dfO hessO : List Param → Tensor)
        (hvpO : List Param → Vec → Vec × Vec) (upd : Vec → Vec → Vec)
        (env : Env) (s : CRN) (g : Group) (gs : List Group),
        s.cached_hess = none → s.groups = g :: gs →
        CRN.step eigh rayLS nrm dfO hessO hvpO upd env s false = .error .attrError := by
  constructor
  · intro env lazyRef pgs L sub sargs mi ra vb tst env2 s h
    unfold CRN.init at h
    split at h
    · simp at h
    · injection h with h2
      injection h2 with he hs
      rw [← hs]
      exact ⟨rfl, rfl⟩
  · intro eigh rayLS nrm dfO hessO hvpO upd env s g gs hcache hgroups
    simp only [CRN.step, hgroups, hcache, stepGroups, stepGroup, Bool.false_eq_true,
      if_false]

/-- Witness for C10: a freshly constructed instance with any subsolver
setting fails on `step(closure, hess=False)`. -/
theorem step_missing_cached_hess_witness :
    ((⟨[⟨[⟨[1], none⟩], 1, none, ⟨1 / 100⟩, 100, 1 / 10, 0⟩], true, false, none,
        none⟩ : CRN).cached_hess = none ∧
      (⟨[⟨[⟨[1], none⟩], 1, none, ⟨1 / 100⟩, 100, 1 / 10, 0⟩], true, false, none,
        none⟩ : CRN).hessAttr = none)
    ∧ CRN.step demoEigh demoLS demoNrm demoDf demoHessO demoHvp demoUpd [⟨1, 0, 0⟩]
        ⟨[⟨[⟨[1], none⟩], 1, none, ⟨1 / 100⟩, 100, 1 / 10, 0⟩], true, false, none,
          none⟩ false = .error .attrError :=
  ⟨(step_missing_cached_hess).1 sharedLazyEnv 0 [[⟨[1], none⟩]] 1 none none 100
      (1 / 10) true false [⟨1, 0, 0⟩]
      ⟨[⟨[⟨[1], none⟩], 1, none, ⟨1 / 100⟩, 100, 1 / 10, 0⟩], true, false, none, none⟩
      (by simp [CRN.init, envInitLazy, sharedLazyEnv, emptyLazy]),
    (step_missing_cached_hess).2 demoEigh demoLS demoNrm demoDf demoHessO demoHvp
      demoUpd [⟨1, 0, 0⟩]
      ⟨[⟨[⟨[1], none⟩], 1, none, ⟨1 / 100⟩, 100, 1 / 10, 0⟩], true, false, none, none⟩
      ⟨[⟨[1], none⟩], 1, none, ⟨1 / 100⟩, 100, 1 / 10, 0⟩ [] rfl rfl⟩

/-- Claim C9 (refuted on the code): the claim asserts that distinct
optimizer instances never interfere, including instances constructed with
the default `lazy_args`.  The constructor's default
`lazy_args: dict = dict(step_per_update=1)` is a single module-level
dictionary shared by reference: `torch.optim.Optimizer` stores defaults into
every parameter group without copying, so two instances constructed without
passing `lazy_args` point at the same dictionary.  This theorem evaluates
the model at that failing input: instances `A` and `B` are constructed with
the default dictionary (reference `0`), both groups hold that same
reference, and a single `step` on `A` moves the counter that `B` reads from
`0` to `1` although `B` was never stepped. -/
theorem default_lazy_args_interference :
    CRN.init sharedLazyEnv 0 [[⟨[1], none⟩]] 1 none none 100 (1 / 10) true false =
      .ok ([⟨1, 0, 0⟩],
        ⟨[⟨[⟨[1], none⟩], 1, none, ⟨1 / 100⟩, 100, 1 / 10, 0⟩], true, false, none, none⟩)
    ∧ CRN.init [⟨1, 0, 0⟩] 0 [[⟨[7], none⟩]] 1 none none 100 (1 / 10) true false =
      .ok ([⟨1, 0, 0⟩],
        ⟨[⟨[⟨[7], none⟩], 1, none, ⟨1 / 100⟩, 100, 1 / 10, 0⟩], true, false, none, none⟩)
    ∧ (⟨[⟨[⟨[1], none⟩], 1, none, ⟨1 / 100⟩, 100, 1 / 10, 0⟩], true, false, none,
        none⟩ : CRN).groups.map Group.lazyRef =
      (⟨[⟨[⟨[7], none⟩], 1, none, ⟨1 / 100⟩, 100, 1 / 10, 0⟩], true, false, none,
        none⟩ : CRN).groups.map Group.lazyRef
    ∧ CRN.step demoEigh demoLS demoNrm demoDf demoHessO demoHvp demoUpd [⟨1, 0, 0⟩]
        ⟨[⟨[⟨[1], none⟩], 1, none, ⟨1 / 100⟩, 100, 1 / 10, 0⟩], true, false, none,
          none⟩ true =
      .ok ([⟨1, 1, 0⟩],
        ⟨[⟨[⟨[1 / 2], none⟩], 1, none, ⟨1 / 100⟩, 100, 1 / 10, 0⟩], true, false, none,
          some ⟨[1, 1], [2]⟩⟩)
    ∧ (([⟨1, 0, 0⟩] : Env).getD 0 emptyLazy).cur_iter = 0
    ∧ (([⟨1, 1, 0⟩] : Env).getD 0 emptyLazy).cur_iter = 1 := by
  refine ⟨?_, ?_, rfl, ?_, rfl, rfl⟩
  · simp [CRN.init, envInitLazy, sharedLazyEnv, emptyLazy]
  · simp [CRN.init, envInitLazy, emptyLazy]
  · simp [CRN.step, stepGroups, stepGroup, stepGroupRun, exact, envIncr, applyStep,
      demoEigh, demoLS, demoNrm, demoDf, demoHessO, demoHvp, demoUpd,
      Tensor.dim, Tensor.size0, Tensor.symGap, idxPairs, Tensor.entry,
      Tensor.cols, Tensor.rows, mvM, transposeM, dotv, vmul, vadd, vneg, smul, inv,
      dual, maxAbs, rollup, Tensor.mv, Tensor.toVec, List.range_succ, List.range_zero,
      List.flatMap_cons, List.flatMap_nil, Function.comp, defaultDelta, emptyLazy]
    norm_num

end Optami
